import Mathlib

/-!
# Verification of the orientation / rotation-baking core

Shallow embedding of the orientation pipeline of this repository:

* the sky-rotation basis builder and Euler-angle extraction of
  `applySkyRotation` in `navigation-system.js`
  (src/joshscript_aframe6_floorplanbase/COORDINATE_UPDATE_GUIDE.md,
  lines 874-961), including the DXF to A-Frame vector conversions and
  the calibration offsets of `CONFIG` (lines 509-518);
* the rotation-baking image resampler and the orientation pipeline
  described in src/joshscript_aframe/ROTATION_BAKING_README.md
  (the Python script `bake_full_3d_rotation.py` itself is not in the
  source tree, so those parts are modelled from the specification).

Vectors are embedded as exact real triples; JavaScript floating-point
arithmetic is modelled by real arithmetic.  The Euler-angle extraction
`THREE.Euler.setFromRotationMatrix(m, 'YXZ')` is an external library
call; it is embedded by its published implementation (asin of the
clamped `m23` entry, two `atan2` calls, and a fallback branch with
`roll = 0` when `|m23| >= 0.9999999`), with `atan2 y x` embedded as
the argument of the complex number `x + i y`.
-/

namespace SkyRot

/-! ## Definitions -/

/-- A 3-component real vector (embedding of `THREE.Vector3`). -/
@[ext]
structure Vec3 where
  x : ℝ
  y : ℝ
  z : ℝ

namespace Vec3

/-- The zero vector. -/
def zero : Vec3 := ⟨0, 0, 0⟩

/-- Componentwise negation. -/
def neg (v : Vec3) : Vec3 := ⟨-v.x, -v.y, -v.z⟩

/-- Scalar multiple. -/
def smul (c : ℝ) (v : Vec3) : Vec3 := ⟨c * v.x, c * v.y, c * v.z⟩

/-- Dot product (embedding of `THREE.Vector3.dot`). -/
def dot (a b : Vec3) : ℝ := a.x * b.x + a.y * b.y + a.z * b.z

/-- Cross product (embedding of `THREE.Vector3.crossVectors a b`). -/
def cross (a b : Vec3) : Vec3 :=
  ⟨a.y * b.z - a.z * b.y, a.z * b.x - a.x * b.z, a.x * b.y - a.y * b.x⟩

/-- Squared Euclidean length. -/
def normSq (v : Vec3) : ℝ := v.x ^ 2 + v.y ^ 2 + v.z ^ 2

/-- Euclidean length (embedding of `THREE.Vector3.length`). -/
noncomputable def norm (v : Vec3) : ℝ := Real.sqrt (normSq v)

open Classical in
/-- Embedding of `THREE.Vector3.normalize`:
`divideScalar(this.length() || 1)`, i.e. the zero vector (length `0`,
falsy in JavaScript) is divided by `1` and stays the zero vector, and
any other vector is divided by its length. -/
noncomputable def normalize (v : Vec3) : Vec3 :=
  if norm v = 0 then v else smul (norm v)⁻¹ v

end Vec3

open Vec3

/-- A direction record carrying a full orientation: raw `forward` and
`up` vectors in DXF (Z-up) coordinates, as stored in the frame
collection (`direction.forward` / `direction.up`). -/
structure DxfDirection where
  forward : Vec3
  up : Vec3

/-- The standard DXF (Z-up) to A-Frame (Y-up) conversion used
throughout `navigation-system.js` for positions and for the forward
vector: `DXF(x,y,z) -> A-Frame(x, z, -y)`. -/
def dxfToAFrame (v : Vec3) : Vec3 := ⟨v.x, v.z, -v.y⟩

/-- The forward vector as built inside `applySkyRotation`
(lines 889-893): the standard conversion, no inversion. -/
def skyForwardVec (d : DxfDirection) : Vec3 :=
  ⟨d.forward.x, d.forward.z, -d.forward.y⟩

/-- The up vector as built inside `applySkyRotation` (lines 896-900):
each component of the standard conversion is negated
("invert the up vector to fix upside-down issue"). -/
def skyUpVec (d : DxfDirection) : Vec3 :=
  ⟨-d.up.x, -d.up.z, d.up.y⟩

/-- The orthonormal-basis result of `applySkyRotation`. -/
structure SkyBasis where
  right : Vec3
  cUp : Vec3
  fwd : Vec3

/-- Basis construction of `applySkyRotation` (lines 894-910): normalize
`forward` and `up`, then `right = normalize(up × forward)` and
`correctedUp = normalize(forward × right)`. -/
noncomputable def buildBasis (forward up : Vec3) : SkyBasis :=
  let f := normalize forward
  let u := normalize up
  let r := normalize (cross u f)
  let cu := normalize (cross f r)
  ⟨r, cu, f⟩

/-- The degenerate-input error named by the specification's error
taxonomy for parallel / zero direction vectors. -/
inductive DegenerateBasisError where
  | degenerate
deriving DecidableEq

/-- The basis builder viewed as a fallible computation.  The source of
`applySkyRotation` contains no degeneracy check and no error path
(`THREE.Vector3.normalize` maps the zero vector to itself), so the
embedding always returns `Except.ok`. -/
noncomputable def buildBasisExc (forward up : Vec3) :
    Except DegenerateBasisError SkyBasis :=
  Except.ok (buildBasis forward up)

/-- A 3×3 real matrix, entries indexed row-column. -/
@[ext]
structure Mat3 where
  m11 : ℝ
  m12 : ℝ
  m13 : ℝ
  m21 : ℝ
  m22 : ℝ
  m23 : ℝ
  m31 : ℝ
  m32 : ℝ
  m33 : ℝ

/-- The matrix whose columns are the three given vectors. -/
def colMat (c1 c2 c3 : Vec3) : Mat3 :=
  ⟨c1.x, c2.x, c3.x, c1.y, c2.y, c3.y, c1.z, c2.z, c3.z⟩

/-- The rotation matrix built by `applySkyRotation` (lines 913-919):
columns `[right, correctedUp, -forward]`, since the camera looks down
`-Z`. -/
def skyRotMatrix (r u f : Vec3) : Mat3 := colMat r u (neg f)

/-- Matrix product. -/
def matMul (A B : Mat3) : Mat3 :=
  ⟨A.m11 * B.m11 + A.m12 * B.m21 + A.m13 * B.m31,
   A.m11 * B.m12 + A.m12 * B.m22 + A.m13 * B.m32,
   A.m11 * B.m13 + A.m12 * B.m23 + A.m13 * B.m33,
   A.m21 * B.m11 + A.m22 * B.m21 + A.m23 * B.m31,
   A.m21 * B.m12 + A.m22 * B.m22 + A.m23 * B.m32,
   A.m21 * B.m13 + A.m22 * B.m23 + A.m23 * B.m33,
   A.m31 * B.m11 + A.m32 * B.m21 + A.m33 * B.m31,
   A.m31 * B.m12 + A.m32 * B.m22 + A.m33 * B.m32,
   A.m31 * B.m13 + A.m32 * B.m23 + A.m33 * B.m33⟩

/-- Matrix transpose. -/
def transpose (M : Mat3) : Mat3 :=
  ⟨M.m11, M.m21, M.m31, M.m12, M.m22, M.m32, M.m13, M.m23, M.m33⟩

/-- Matrix-vector application. -/
def applyMat (M : Mat3) (v : Vec3) : Vec3 :=
  ⟨M.m11 * v.x + M.m12 * v.y + M.m13 * v.z,
   M.m21 * v.x + M.m22 * v.y + M.m23 * v.z,
   M.m31 * v.x + M.m32 * v.y + M.m33 * v.z⟩

/-- Two-argument arctangent with range `(-π, π]`, the semantics of
JavaScript's `Math.atan2(y, x)`: embedded as the argument of the
complex number `x + i y`. -/
noncomputable def atan2 (y x : ℝ) : ℝ := Complex.arg ⟨x, y⟩

/-- Clamp to `[-1, 1]` (the `clamp` used by
`THREE.Euler.setFromRotationMatrix` before `asin`). -/
noncomputable def clamp1 (t : ℝ) : ℝ := max (-1) (min 1 t)

/-- Euler angles in radians, fields named after `THREE.Euler`:
rotation about X (`ex`), Y (`ey`), Z (`ez`). -/
structure EulerRad where
  ex : ℝ
  ey : ℝ
  ez : ℝ

open Classical in
/-- Embedding of `THREE.Euler.setFromRotationMatrix(m, 'YXZ')` (the
external library call on line 922): `x = asin(-clamp(m23, -1, 1))`;
in the main branch (`|m23| < 0.9999999`) `y = atan2(m13, m33)` and
`z = atan2(m21, m22)`; in the near-gimbal fallback branch
`y = atan2(-m31, m11)` and `z = 0`. -/
noncomputable def eulerYXZ (M : Mat3) : EulerRad :=
  let ex := Real.arcsin (-(clamp1 M.m23))
  if |M.m23| < 0.9999999 then
    ⟨ex, atan2 M.m13 M.m33, atan2 M.m21 M.m22⟩
  else
    ⟨ex, atan2 (-M.m31) M.m11, 0⟩

/-- Radians to degrees (`* (180 / Math.PI)`). -/
noncomputable def rad2deg (t : ℝ) : ℝ := t * (180 / Real.pi)

/-- Degrees to radians. -/
noncomputable def deg2rad (t : ℝ) : ℝ := t * (Real.pi / 180)

/-- Euler angles in degrees in the naming of `applySkyRotation`:
pitch about X, yaw about Y, roll about Z. -/
structure EulerDeg where
  pitch : ℝ
  yaw : ℝ
  roll : ℝ

/-- The raw decomposed angles in degrees, before calibration offsets:
`euler.x/y/z * (180/π)` with `x -> pitch`, `y -> yaw`, `z -> roll`
(lines 925-927 without the offsets). -/
noncomputable def eulerOfMatrixDeg (M : Mat3) : EulerDeg :=
  let e := eulerYXZ M
  ⟨rad2deg e.ex, rad2deg e.ey, rad2deg e.ez⟩

/-- Decompose an orthonormal basis: build the sky rotation matrix and
extract YXZ Euler angles in degrees. -/
noncomputable def eulerOfBasisDeg (r u f : Vec3) : EulerDeg :=
  eulerOfMatrixDeg (skyRotMatrix r u f)

/-- The calibration-offset fields of `CONFIG` (lines 516-517).  The
source configuration object has exactly these two offset fields:
`PITCH_OFFSET` and `ROLL_OFFSET`, both defaulting to `0`.  There is no
yaw offset field. -/
structure Config where
  pitchOffset : ℝ
  rollOffset : ℝ

/-- The default configuration (`PITCH_OFFSET: 0, ROLL_OFFSET: 0`). -/
def defaultConfig : Config := ⟨0, 0⟩

/-- Calibration step of `applySkyRotation` (lines 925-927):
`pitch = euler.x° + PITCH_OFFSET`, `yaw = euler.y° + 90`
(the literal comment reads "Add 90° to fix left rotation"), and
`roll = -(euler.z°) + ROLL_OFFSET`. -/
def calibrate (cfg : Config) (e : EulerDeg) : EulerDeg :=
  ⟨e.pitch + cfg.pitchOffset, e.yaw + 90, -e.roll + cfg.rollOffset⟩

/-- The full angle computation of `applySkyRotation` for a frame with
full orientation: convert the DXF vectors, build the basis, build the
matrix, extract YXZ Euler angles in degrees, apply calibration. -/
noncomputable def applySkyRotationAngles (cfg : Config) (d : DxfDirection) : EulerDeg :=
  let B := buildBasis (skyForwardVec d) (skyUpVec d)
  calibrate cfg (eulerOfBasisDeg B.right B.cUp B.fwd)

/-- Rotation about the Y axis by `t` radians. -/
noncomputable def rotY (t : ℝ) : Mat3 :=
  ⟨Real.cos t, 0, Real.sin t, 0, 1, 0, -Real.sin t, 0, Real.cos t⟩

/-- Rotation about the X axis by `t` radians. -/
noncomputable def rotX (t : ℝ) : Mat3 :=
  ⟨1, 0, 0, 0, Real.cos t, -Real.sin t, 0, Real.sin t, Real.cos t⟩

/-- Rotation about the Z axis by `t` radians. -/
noncomputable def rotZ (t : ℝ) : Mat3 :=
  ⟨Real.cos t, -Real.sin t, 0, Real.sin t, Real.cos t, 0, 0, 0, 1⟩

/-- Modelled from the spec: the inverse operation of the Euler
decomposer ("given (yaw,pitch,roll), reconstruct the equivalent basis
using the same order"); it is not present in the source tree.
Intrinsic YXZ order: the matrix `Ry(yaw) · Rx(pitch) · Rz(roll)`,
angles given in degrees. -/
noncomputable def reconstructYXZ (e : EulerDeg) : Mat3 :=
  matMul (matMul (rotY (deg2rad e.yaw)) (rotX (deg2rad e.pitch))) (rotZ (deg2rad e.roll))

/-! ## Definitions: the rotation baker (modelled from the spec)

`bake_full_3d_rotation.py` is not in the source tree; the resampler is
modelled from §4.3 of the specification and
src/joshscript_aframe/ROTATION_BAKING_README.md ("How It Works" step 3,
"Equirectangular Rotation").  Pixels are real-valued (one channel
stands for each colour channel; channels are resampled identically). -/

/-- An equirectangular image: width, height, and a pixel buffer read as
`pix px py` (column `px`, row `py`). -/
structure EquirectImage where
  width : ℕ
  height : ℕ
  pix : ℕ → ℕ → ℝ

/-- Horizontal index wrap (seam continuity at longitude ±π): reduce an
integer column index modulo the width. -/
def wrapIdx (w : ℕ) (i : ℤ) : ℕ := (i % (w : ℤ)).toNat

/-- Vertical index clamp (pole handling): clamp an integer row index
into `[0, h-1]`. -/
def clampIdx (h : ℕ) (i : ℤ) : ℕ := (max 0 (min ((h : ℤ) - 1) i)).toNat

/-- Read a source texel with horizontal wrap and vertical clamp. -/
def getPix (img : EquirectImage) (ix iy : ℤ) : ℝ :=
  img.pix (wrapIdx img.width ix) (clampIdx img.height iy)

/-- Bilinear sample at a fractional source-pixel position: blend the
4 nearest source pixels by fractional weight. -/
noncomputable def bilinearSample (img : EquirectImage) (fx fy : ℝ) : ℝ :=
  let x0 : ℤ := ⌊fx⌋
  let y0 : ℤ := ⌊fy⌋
  let dx : ℝ := fx - x0
  let dy : ℝ := fy - y0
  (1 - dx) * (1 - dy) * getPix img x0 y0 +
    dx * (1 - dy) * getPix img (x0 + 1) y0 +
    (1 - dx) * dy * getPix img x0 (y0 + 1) +
    dx * dy * getPix img (x0 + 1) (y0 + 1)

/-- Longitude of an output pixel column: `(px / W) · 2π − π`. -/
noncomputable def lonOfPixel (w : ℕ) (px : ℕ) : ℝ :=
  ((px : ℝ) / (w : ℝ)) * (2 * Real.pi) - Real.pi

/-- Latitude of an output pixel row: `π/2 − (py / H) · π`. -/
noncomputable def latOfPixel (h : ℕ) (py : ℕ) : ℝ :=
  Real.pi / 2 - ((py : ℝ) / (h : ℝ)) * Real.pi

/-- Spherical to Cartesian unit direction. -/
noncomputable def dirOfLonLat (lon lat : ℝ) : Vec3 :=
  ⟨Real.cos lat * Real.cos lon, Real.cos lat * Real.sin lon, Real.sin lat⟩

/-- Longitude of a direction. -/
noncomputable def lonOfDir (v : Vec3) : ℝ := atan2 v.y v.x

/-- Latitude of a direction (clamped for safety against rounding). -/
noncomputable def latOfDir (v : Vec3) : ℝ := Real.arcsin (clamp1 v.z)

/-- Wrap a longitude into `[-π, π)` (seam continuity). -/
noncomputable def wrapLon (lon : ℝ) : ℝ :=
  lon - 2 * Real.pi * ⌊(lon + Real.pi) / (2 * Real.pi)⌋

/-- Clamp a latitude into `[-π/2, π/2]` (pole handling). -/
noncomputable def clampLat (lat : ℝ) : ℝ :=
  max (-(Real.pi / 2)) (min (Real.pi / 2) lat)

/-- Fractional source column of a wrapped longitude. -/
noncomputable def srcFx (w : ℕ) (lon : ℝ) : ℝ :=
  (lon + Real.pi) / (2 * Real.pi) * (w : ℝ)

/-- Fractional source row of a clamped latitude. -/
noncomputable def srcFy (h : ℕ) (lat : ℝ) : ℝ :=
  (Real.pi / 2 - lat) / Real.pi * (h : ℝ)

/-- One output pixel of the baker: pixel to (lon,lat), to direction,
inverse-rotate by `Rᵗ`, back to (lon,lat), wrap/clamp, to fractional
source pixel, bilinear sample. -/
noncomputable def bakePixel (R : Mat3) (img : EquirectImage) (px py : ℕ) : ℝ :=
  let d := dirOfLonLat (lonOfPixel img.width px) (latOfPixel img.height py)
  let d' := applyMat (transpose R) d
  bilinearSample img
    (srcFx img.width (wrapLon (lonOfDir d')))
    (srcFy img.height (clampLat (latOfDir d')))

/-- The baked output image: same dimensions, every pixel resampled
through the inverse rotation. -/
noncomputable def bakeImage (R : Mat3) (img : EquirectImage) : EquirectImage :=
  ⟨img.width, img.height, fun px py => bakePixel R img px py⟩

/-! ## Definitions: the orientation pipeline (modelled from the spec)

The pipeline of `bake_full_3d_rotation.py` is not in the source tree;
it is modelled from §4.4 / §7 of the specification and
src/joshscript_aframe/ROTATION_BAKING_README.md (processed JSON
changes, backup, idempotence).  Frame data is embedded over `ℚ`
(the collection stores decimal numbers), which keeps the pipeline
executable; the per-frame degeneracy test compares the squared cross
product against ε² with ε = 1e-6. -/

/-- A rational 3-vector, as stored in the frame collection. -/
structure Vec3Q where
  x : ℚ
  y : ℚ
  z : ℚ
deriving DecidableEq

/-- Cross product over ℚ. -/
def crossQ (a b : Vec3Q) : Vec3Q :=
  ⟨a.y * b.z - a.z * b.y, a.z * b.x - a.x * b.z, a.x * b.y - a.y * b.x⟩

/-- Squared length over ℚ. -/
def normSqQ (v : Vec3Q) : ℚ := v.x ^ 2 + v.y ^ 2 + v.z ^ 2

/-- A stored direction: forward and up vectors (DXF coordinates). -/
structure DirectionQ where
  forward : Vec3Q
  up : Vec3Q
deriving DecidableEq

/-- A frame record of the collection schema:
`{id, position, direction, image_path, baked, original_image_path?}`. -/
structure Frame where
  id : ℕ
  position : Vec3Q
  direction : DirectionQ
  imagePath : String
  baked : Bool
  originalImagePath : Option String
deriving DecidableEq

/-- The identity direction written once a frame is baked:
`forward = (0,-1,0)`, `up = (0,0,1)` in DXF coordinates. -/
def identityDirection : DirectionQ := ⟨⟨0, -1, 0⟩, ⟨0, 0, 1⟩⟩

/-- ε² for the degeneracy test, ε = 1e-6. -/
def epsSq : ℚ := 1 / 10 ^ 12

/-- Degeneracy test: `‖up × forward‖ < ε`, squared to stay rational. -/
def degenerateQ (d : DirectionQ) : Bool :=
  normSqQ (crossQ d.up d.forward) < epsSq

/-- Per-frame pipeline errors of the specification's taxonomy that the
pipeline records: degenerate basis or I/O failure. -/
inductive PipelineError where
  | degenerateBasis
  | ioFailure
deriving DecidableEq

/-- Output path of a processed image (`panoramas/processed/...`). -/
def processedPath (p : String) : String := "processed/" ++ p

/-- Process a single unbaked frame.  `ioFail` tells which frame ids
suffer an I/O failure when their image is read or written.  On success
the frame gets the identity direction, the image path is repointed to
the processed file, the original path is preserved, and the baked flag
is set. -/
def processFrame (ioFail : ℕ → Bool) (f : Frame) : Except PipelineError Frame :=
  if degenerateQ f.direction then Except.error PipelineError.degenerateBasis
  else if ioFail f.id then Except.error PipelineError.ioFailure
  else Except.ok { f with direction := identityDirection,
                          imagePath := processedPath f.imagePath,
                          originalImagePath := some f.imagePath,
                          baked := true }

/-- What one pipeline pass does to one frame record: skip it if already
baked, commit the processed record if processing succeeds, and leave it
unchanged if processing fails. -/
def stepFrame (ioFail : ℕ → Bool) (f : Frame) : Frame :=
  if f.baked then f
  else
    match processFrame ioFail f with
    | Except.ok f' => f'
    | Except.error _ => f

/-- Observable events of a pipeline run, in order.  `backup` carries
the verbatim pre-run collection it persists (under a
timestamp-qualified name). -/
inductive Event where
  | backup (snapshot : List Frame)
  | writeImage (id : ℕ)
  | mutateRecord (id : ℕ)
  | writeCollection
deriving DecidableEq

/-- The per-frame loop: returns updated frames, succeeded ids, failed
ids with reasons, and the emitted write events. -/
def runFrames (ioFail : ℕ → Bool) :
    List Frame → List Frame × List ℕ × List (ℕ × PipelineError) × List Event
  | [] => ([], [], [], [])
  | f :: fs =>
    let r := runFrames ioFail fs
    if f.baked then (f :: r.1, r.2.1, r.2.2.1, r.2.2.2)
    else
      match processFrame ioFail f with
      | Except.ok f' =>
          (f' :: r.1, f.id :: r.2.1, r.2.2.1,
            Event.writeImage f.id :: Event.mutateRecord f.id :: r.2.2.2)
      | Except.error e =>
          (f :: r.1, r.2.1, (f.id, e) :: r.2.2.1, r.2.2.2)

/-- Result of a pipeline run: the updated collection, the per-frame
success/failure summary, and the ordered event trace. -/
structure RunResult where
  frames : List Frame
  succeeded : List ℕ
  failed : List (ℕ × PipelineError)
  events : List Event
deriving DecidableEq

/-- A full pipeline run.  Dry-run mode computes and reports planned
rotations but writes nothing and mutates nothing.  An optional frame
cap `lim` stops after that many frames (evaluated before per-frame
work begins); frames beyond the cap are untouched.  A real run first
persists the timestamped backup of the pre-run collection, then
processes frames, then persists the updated collection. -/
def run (ioFail : ℕ → Bool) (dry : Bool) (lim : Option ℕ) (frames : List Frame) :
    RunResult :=
  if dry then ⟨frames, [], [], []⟩
  else
    let k := lim.getD frames.length
    let r := runFrames ioFail (frames.take k)
    ⟨r.1 ++ frames.drop k, r.2.1, r.2.2.1,
      Event.backup frames :: (r.2.2.2 ++ [Event.writeCollection])⟩

/-- Number of frames baked in a run: the number of image writes. -/
def bakedCount (r : RunResult) : ℕ :=
  r.events.countP fun ev =>
    match ev with
    | Event.writeImage _ => true
    | _ => false

/-- Whether an event is a mutation (an image write or a record
mutation). -/
def isMutation (ev : Event) : Bool :=
  match ev with
  | Event.writeImage _ => true
  | Event.mutateRecord _ => true
  | _ => false

/-- The expected success summary: ids of unbaked frames whose
processing succeeds. -/
def successesOf (ioFail : ℕ → Bool) (frames : List Frame) : List ℕ :=
  frames.filterMap fun f =>
    if f.baked then none
    else
      match processFrame ioFail f with
      | Except.ok _ => some f.id
      | Except.error _ => none

/-- The expected failure summary: ids of unbaked frames whose
processing fails, with the recorded reason. -/
def failuresOf (ioFail : ℕ → Bool) (frames : List Frame) :
    List (ℕ × PipelineError) :=
  frames.filterMap fun f =>
    if f.baked then none
    else
      match processFrame ioFail f with
      | Except.ok _ => none
      | Except.error e => some (f.id, e)

/-- A concrete well-formed unbaked test frame. -/
def mkFrame (n : ℕ) (d : DirectionQ) : Frame :=
  ⟨n, ⟨0, 0, 0⟩, d, "frame_" ++ toString n ++ ".jpg", false, none⟩

/-- A non-degenerate direction (forward = -Y, up = +Z in DXF). -/
def goodDir : DirectionQ := ⟨⟨0, -1, 0⟩, ⟨0, 0, 1⟩⟩

/-- A degenerate direction: forward and up parallel. -/
def parallelDir : DirectionQ := ⟨⟨0, 0, 1⟩, ⟨0, 0, 1⟩⟩

/-- The 5-frame test collection of the partial-failure scenario: frame
3 has parallel forward/up vectors. -/
def fiveFrames : List Frame :=
  [mkFrame 1 goodDir, mkFrame 2 goodDir, mkFrame 3 parallelDir,
   mkFrame 4 goodDir, mkFrame 5 goodDir]

/-! ## Theorems: vector algebra -/

namespace Vec3

theorem normSq_nonneg (v : Vec3) : 0 ≤ normSq v := by
  unfold normSq; positivity

theorem normSq_eq_zero_iff {v : Vec3} : normSq v = 0 ↔ v = zero := by
  unfold normSq zero
  constructor
  · intro h
    have hx : v.x = 0 := by nlinarith [sq_nonneg v.x, sq_nonneg v.y, sq_nonneg v.z]
    have hy : v.y = 0 := by nlinarith [sq_nonneg v.x, sq_nonneg v.y, sq_nonneg v.z]
    have hz : v.z = 0 := by nlinarith [sq_nonneg v.x, sq_nonneg v.y, sq_nonneg v.z]
    ext <;> simp [hx, hy, hz]
  · intro h; rw [h]; norm_num

theorem norm_eq_zero_iff {v : Vec3} : norm v = 0 ↔ v = zero := by
  unfold norm
  rw [Real.sqrt_eq_zero (normSq_nonneg v)]
  exact normSq_eq_zero_iff

theorem norm_nonneg (v : Vec3) : 0 ≤ norm v := Real.sqrt_nonneg _

theorem sq_norm (v : Vec3) : norm v ^ 2 = normSq v :=
  Real.sq_sqrt (normSq_nonneg v)

theorem norm_pos_of_ne_zero {v : Vec3} (h : v ≠ zero) : 0 < norm v := by
  rcases lt_or_eq_of_le (norm_nonneg v) with h' | h'
  · exact h'
  · exact absurd (norm_eq_zero_iff.mp h'.symm) h

theorem normalize_zero : normalize zero = zero := by
  unfold normalize
  rw [if_pos (norm_eq_zero_iff.mpr rfl)]

theorem normalize_of_ne_zero {v : Vec3} (h : v ≠ zero) :
    normalize v = smul (norm v)⁻¹ v := by
  unfold normalize
  rw [if_neg (fun h0 => h (norm_eq_zero_iff.mp h0))]

theorem normSq_smul (c : ℝ) (v : Vec3) : normSq (smul c v) = c ^ 2 * normSq v := by
  unfold normSq smul; ring

theorem normSq_normalize {v : Vec3} (h : v ≠ zero) : normSq (normalize v) = 1 := by
  have hv := norm_pos_of_ne_zero h
  rw [normalize_of_ne_zero h, normSq_smul, ← sq_norm v]
  rw [show ((norm v)⁻¹ ^ 2 * norm v ^ 2) = ((norm v)⁻¹ * norm v) ^ 2 by ring]
  rw [inv_mul_cancel₀ (ne_of_gt hv)]
  norm_num

theorem norm_normalize {v : Vec3} (h : v ≠ zero) : norm (normalize v) = 1 := by
  unfold norm
  rw [normSq_normalize h]
  exact Real.sqrt_one

/-- Lagrange's identity for the cross product, proved componentwise. -/
theorem normSq_cross (a b : Vec3) :
    normSq (cross a b) = normSq a * normSq b - dot a b ^ 2 := by
  unfold normSq cross dot; ring

theorem dot_cross_left (a b : Vec3) : dot (cross a b) a = 0 := by
  unfold dot cross; ring

theorem dot_cross_right (a b : Vec3) : dot (cross a b) b = 0 := by
  unfold dot cross; ring

/-- Vector triple-product expansion `a × (b × c) = (a·c) b − (a·b) c`. -/
theorem cross_cross (a b c : Vec3) :
    cross a (cross b c) = ⟨dot a c * b.x - dot a b * c.x,
      dot a c * b.y - dot a b * c.y, dot a c * b.z - dot a b * c.z⟩ := by
  unfold cross dot; ext <;> ring

theorem dot_smul_left (c : ℝ) (a b : Vec3) : dot (smul c a) b = c * dot a b := by
  unfold dot smul; ring

theorem dot_smul_right (c : ℝ) (a b : Vec3) : dot a (smul c b) = c * dot a b := by
  unfold dot smul; ring

theorem cross_smul_left (c : ℝ) (a b : Vec3) :
    cross (smul c a) b = smul c (cross a b) := by
  unfold cross smul; ext <;> ring

theorem cross_smul_right (c : ℝ) (a b : Vec3) :
    cross a (smul c b) = smul c (cross a b) := by
  unfold cross smul; ext <;> ring

theorem cross_zero_left (a : Vec3) : cross zero a = zero := by
  unfold cross zero; ext <;> ring

theorem cross_zero_right (a : Vec3) : cross a zero = zero := by
  unfold cross zero; ext <;> ring

theorem smul_eq_zero_iff {c : ℝ} {v : Vec3} :
    smul c v = zero ↔ c = 0 ∨ v = zero := by
  unfold smul zero
  constructor
  · intro h
    by_cases hc : c = 0
    · exact Or.inl hc
    · refine Or.inr ?_
      have hx := congrArg Vec3.x h
      have hy := congrArg Vec3.y h
      have hz := congrArg Vec3.z h
      simp at hx hy hz
      ext <;> simp <;> tauto
  · rintro (h | h) <;> (rw [h]; ext <;> simp)

theorem dot_comm (a b : Vec3) : dot a b = dot b a := by
  unfold dot; ring

theorem dot_self (v : Vec3) : dot v v = normSq v := by
  unfold dot normSq; ring

theorem smul_one (v : Vec3) : smul 1 v = v := by
  unfold smul; ext <;> simp

theorem smul_smul (c d : ℝ) (v : Vec3) : smul c (smul d v) = smul (c * d) v := by
  unfold smul; ext <;> ring

theorem norm_smul (c : ℝ) (v : Vec3) : norm (smul c v) = |c| * norm v := by
  unfold norm
  rw [normSq_smul, Real.sqrt_mul (sq_nonneg c), Real.sqrt_sq_eq_abs]

/-- Normalizing a positive scalar multiple gives the same unit vector. -/
theorem normalize_smul_pos {c : ℝ} (hc : 0 < c) (v : Vec3) :
    normalize (smul c v) = normalize v := by
  by_cases hv : v = zero
  · rw [hv]
    rw [show smul c zero = zero by unfold smul zero; ext <;> simp]
  · have hcv : smul c v ≠ zero := by
      rw [Ne, smul_eq_zero_iff]
      push_neg
      exact ⟨ne_of_gt hc, hv⟩
    have hc0 : c ≠ 0 := ne_of_gt hc
    have hn0 : norm v ≠ 0 := ne_of_gt (norm_pos_of_ne_zero hv)
    rw [normalize_of_ne_zero hcv, normalize_of_ne_zero hv, norm_smul,
      abs_of_pos hc, Vec3.smul_smul]
    congr 1
    field_simp

/-- A vector of unit squared length is its own normalization. -/
theorem normalize_unit {v : Vec3} (h : normSq v = 1) : normalize v = v := by
  have hn : norm v = 1 := by unfold norm; rw [h]; exact Real.sqrt_one
  have hv : v ≠ zero := by
    intro h0
    rw [h0] at h
    unfold normSq zero at h
    norm_num at h
  rw [normalize_of_ne_zero hv, hn]
  norm_num
  exact smul_one v

/-- Every nonzero vector is its length times its normalization. -/
theorem smul_norm_normalize {v : Vec3} (h : v ≠ zero) :
    smul (norm v) (normalize v) = v := by
  rw [normalize_of_ne_zero h, smul_smul,
    mul_inv_cancel₀ (ne_of_gt (norm_pos_of_ne_zero h)), smul_one]

end Vec3

/-! ## Theorems: the basis builder (C1, C5) -/

/-- If the normalized inputs have a nonzero cross product, neither
input is the zero vector. -/
theorem inputs_ne_zero_of_cross {forward up : Vec3}
    (h : cross (normalize up) (normalize forward) ≠ Vec3.zero) :
    forward ≠ Vec3.zero ∧ up ≠ Vec3.zero := by
  constructor
  · intro h0
    apply h
    rw [h0, normalize_zero, cross_zero_right]
  · intro h0
    apply h
    rw [h0, normalize_zero, cross_zero_left]

/-- C1: for every forward/up input pair that is not parallel or
anti-parallel (the normalized cross product is nonzero), the basis
builder of `applySkyRotation` returns three vectors
`(right, correctedUp, forward)` that are each unit length, pairwise
orthogonal (dot products exactly `0`), and right-handed
(`right × correctedUp = forward`), computed as: forward normalized,
`right = normalize(up × forward)`, and
`correctedUp = normalize(forward × right)`. -/
theorem basisBuilder_orthonormal_rightHanded (forward up : Vec3)
    (h : cross (normalize up) (normalize forward) ≠ Vec3.zero) :
    (norm (buildBasis forward up).right = 1 ∧
      norm (buildBasis forward up).cUp = 1 ∧
      norm (buildBasis forward up).fwd = 1) ∧
    (dot (buildBasis forward up).right (buildBasis forward up).cUp = 0 ∧
      dot (buildBasis forward up).right (buildBasis forward up).fwd = 0 ∧
      dot (buildBasis forward up).cUp (buildBasis forward up).fwd = 0) ∧
    cross (buildBasis forward up).right (buildBasis forward up).cUp =
      (buildBasis forward up).fwd ∧
    ((buildBasis forward up).fwd = normalize forward ∧
      (buildBasis forward up).right = normalize (cross up forward) ∧
      (buildBasis forward up).cUp =
        normalize (cross forward (buildBasis forward up).right)) := by
  obtain ⟨hfne, hune⟩ := inputs_ne_zero_of_cross h
  have hfwd : (buildBasis forward up).fwd = normalize forward := rfl
  have hright : (buildBasis forward up).right =
      normalize (cross (normalize up) (normalize forward)) := rfl
  have hcup : (buildBasis forward up).cUp =
      normalize (cross (normalize forward)
        (normalize (cross (normalize up) (normalize forward)))) := rfl
  set f := normalize forward with hfdef
  set u := normalize up with hudef
  set w := cross u f with hwdef
  set r := normalize w with hrdef
  set w2 := cross f r with hw2def
  -- unit lengths of f and r
  have hnf : norm f = 1 := norm_normalize hfne
  have hnsf : normSq f = 1 := normSq_normalize hfne
  have hnr : norm r = 1 := norm_normalize h
  have hnsr : normSq r = 1 := normSq_normalize h
  -- r is orthogonal to f
  have hdotrf : dot r f = 0 := by
    rw [hrdef, normalize_of_ne_zero h, dot_smul_left, dot_cross_right, mul_zero]
  -- w2 has unit squared length, hence is its own normalization
  have hnsw2 : normSq w2 = 1 := by
    rw [hw2def, normSq_cross, hnsf, hnsr, dot_comm f r, hdotrf]
    norm_num
  have hw2n : normalize w2 = w2 := normalize_unit hnsw2
  have hnw2 : norm w2 = 1 := by
    unfold Vec3.norm
    rw [hnsw2]
    exact Real.sqrt_one
  -- assemble
  have hcup' : (buildBasis forward up).cUp = w2 := by rw [hcup, hw2n]
  have hright' : (buildBasis forward up).right = r := hright
  have hfwd' : (buildBasis forward up).fwd = f := hfwd
  refine ⟨⟨?_, ?_, ?_⟩, ⟨?_, ?_, ?_⟩, ?_, ?_, ?_, ?_⟩
  · rw [hright']; exact hnr
  · rw [hcup']; exact hnw2
  · rw [hfwd']; exact hnf
  · rw [hright', hcup', hw2def, dot_comm, dot_cross_right]
  · rw [hright', hfwd']; exact hdotrf
  · rw [hcup', hfwd', hw2def]
    exact dot_cross_left f r
  · rw [hright', hcup', hfwd', hw2def, Vec3.cross_cross, dot_self, hnsr, hdotrf]
    ext <;> simp
  · exact hfwd
  · -- `normalize(û × f̂) = normalize(up × forward)`
    rw [hright', hrdef, hwdef, hudef, hfdef]
    rw [normalize_of_ne_zero hune, normalize_of_ne_zero hfne,
      cross_smul_left, cross_smul_right, Vec3.smul_smul]
    have hpos : 0 < (norm up)⁻¹ * (norm forward)⁻¹ := by
      have h1 := norm_pos_of_ne_zero hune
      have h2 := norm_pos_of_ne_zero hfne
      positivity
    exact normalize_smul_pos hpos _
  · -- `normalize(f̂ × right) = normalize(forward × right)`
    rw [hcup, hright']
    have : cross forward r = smul (norm forward) (cross f r) := by
      conv_lhs => rw [← smul_norm_normalize hfne]
      rw [cross_smul_left, ← hfdef]
    rw [this]
    exact (normalize_smul_pos (norm_pos_of_ne_zero hfne) _).symm

/-- Witness for C1 at the concrete input `forward = (1,0,0)`,
`up = (0,0,1)`: the hypothesis holds and the right vector is unit. -/
theorem basisBuilder_orthonormal_rightHanded_witness :
    cross (normalize (⟨0, 0, 1⟩ : Vec3)) (normalize (⟨1, 0, 0⟩ : Vec3)) ≠ Vec3.zero ∧
    norm (buildBasis ⟨1, 0, 0⟩ ⟨0, 0, 1⟩).right = 1 := by
  have hu : normalize (⟨0, 0, 1⟩ : Vec3) = ⟨0, 0, 1⟩ :=
    normalize_unit (by unfold Vec3.normSq; norm_num)
  have hf : normalize (⟨1, 0, 0⟩ : Vec3) = ⟨1, 0, 0⟩ :=
    normalize_unit (by unfold Vec3.normSq; norm_num)
  have hne : cross (normalize (⟨0, 0, 1⟩ : Vec3)) (normalize (⟨1, 0, 0⟩ : Vec3)) ≠ Vec3.zero := by
    rw [hu, hf]
    intro h0
    have := congrArg Vec3.y h0
    unfold Vec3.cross Vec3.zero at this
    norm_num at this
  exact ⟨hne, (basisBuilder_orthonormal_rightHanded ⟨1, 0, 0⟩ ⟨0, 0, 1⟩ hne).1.1⟩

/-- C10: for a frame carrying full orientation, `applySkyRotation`
converts the forward vector by the standard DXF-to-A-Frame conversion
`(x, z, -y)` with no inversion, but feeds the basis builder the
negation of the standard conversion of the stored up vector
(`(-x, -z, y) = -(x, z, -y)`): the effective up vector used for
orientation is the inversion of the stored one. -/
theorem skyRotation_up_inverted (d : DxfDirection) :
    skyForwardVec d = dxfToAFrame d.forward ∧
    skyUpVec d = Vec3.neg (dxfToAFrame d.up) := by
  unfold skyForwardVec skyUpVec dxfToAFrame Vec3.neg
  constructor <;> (ext <;> simp)

/-- C5 counterexample: the claim "the basis builder fails with
`DegenerateBasisError` exactly when `‖up × forward‖ < ε` (ε = 1e-6)"
is false on the source: `applySkyRotation` has no error path at all.
At the parallel input `forward = up = (0,0,1)` the cross-product norm
is `0 < ε`, yet the builder completes and returns a value. -/
theorem basisBuilder_failure_claim_false :
    ¬ (∀ forward up : Vec3,
        (buildBasisExc forward up).isOk = false ↔
          norm (cross up forward) < 1e-6) := by
  intro hcl
  have hz : cross (⟨0, 0, 1⟩ : Vec3) ⟨0, 0, 1⟩ = Vec3.zero := by
    unfold Vec3.cross Vec3.zero
    ext <;> norm_num
  have hlt : norm (cross (⟨0, 0, 1⟩ : Vec3) ⟨0, 0, 1⟩) < 1e-6 := by
    rw [hz]
    have : norm Vec3.zero = 0 := norm_eq_zero_iff.mpr rfl
    rw [this]
    norm_num
  have h := (hcl ⟨0, 0, 1⟩ ⟨0, 0, 1⟩).mpr hlt
  simp [buildBasisExc, Except.isOk, Except.toBool] at h

/-- C5 amended: the basis builder never fails — the source contains no
degeneracy check and raises no error; on parallel / anti-parallel
inputs (zero cross product of the normalized vectors) it completes and
returns a degenerate result whose right and correctedUp vectors are
the zero vector (`THREE.Vector3.normalize` maps `0` to `0`). -/
theorem basisBuilder_never_fails (forward up : Vec3)
    (h : cross (normalize up) (normalize forward) = Vec3.zero) :
    (buildBasisExc forward up).isOk = true ∧
    (buildBasis forward up).right = Vec3.zero ∧
    (buildBasis forward up).cUp = Vec3.zero := by
  have hr : (buildBasis forward up).right =
      normalize (cross (normalize up) (normalize forward)) := rfl
  have hc : (buildBasis forward up).cUp =
      normalize (cross (normalize forward)
        (normalize (cross (normalize up) (normalize forward)))) := rfl
  refine ⟨rfl, ?_, ?_⟩
  · rw [hr, h, normalize_zero]
  · rw [hc, h, normalize_zero, cross_zero_right, normalize_zero]

/-- Witness for the amended C5 at the concrete parallel input
`forward = up = (0,0,1)`. -/
theorem basisBuilder_never_fails_witness :
    cross (normalize (⟨0, 0, 1⟩ : Vec3)) (normalize (⟨0, 0, 1⟩ : Vec3)) = Vec3.zero ∧
    (buildBasisExc ⟨0, 0, 1⟩ ⟨0, 0, 1⟩).isOk = true ∧
    (buildBasis ⟨0, 0, 1⟩ ⟨0, 0, 1⟩).right = Vec3.zero := by
  have hu : normalize (⟨0, 0, 1⟩ : Vec3) = ⟨0, 0, 1⟩ :=
    normalize_unit (by unfold Vec3.normSq; norm_num)
  have h : cross (normalize (⟨0, 0, 1⟩ : Vec3)) (normalize (⟨0, 0, 1⟩ : Vec3)) = Vec3.zero := by
    rw [hu]
    unfold Vec3.cross Vec3.zero
    ext <;> norm_num
  exact ⟨h, (basisBuilder_never_fails ⟨0, 0, 1⟩ ⟨0, 0, 1⟩ h).1,
    (basisBuilder_never_fails ⟨0, 0, 1⟩ ⟨0, 0, 1⟩ h).2.1⟩

/-- C6 counterexample: the claim that every returned angle equals the
decomposed angle plus its configured offset is false for roll: the
code returns `-(euler.z°) + ROLL_OFFSET`, the negation of the
decomposed roll plus the offset.  With the default configuration and
decomposed angles `(0, 0, 1)` the returned roll is `-1`, not `1`. -/
theorem calibration_claim_false :
    ¬ (∀ (cfg : Config) (e : EulerDeg),
        (calibrate cfg e).pitch = e.pitch + cfg.pitchOffset ∧
        (calibrate cfg e).roll = e.roll + cfg.rollOffset) := by
  intro hcl
  have h := (hcl defaultConfig ⟨0, 0, 1⟩).2
  unfold calibrate defaultConfig at h
  norm_num at h

/-- C6 amended: only the pitch and roll offsets are configuration
values (`CONFIG.PITCH_OFFSET`, `CONFIG.ROLL_OFFSET`), acting as
`pitch = decomposed + PITCH_OFFSET` and
`roll = -(decomposed) + ROLL_OFFSET`; the yaw offset is the hard-coded
literal `+90` ("Add 90° to fix left rotation"), so the returned yaw is
the same under every configuration — it is not overridable. -/
theorem calibration_offsets (cfg : Config) (e : EulerDeg) :
    calibrate cfg e =
      ⟨e.pitch + cfg.pitchOffset, e.yaw + 90, -e.roll + cfg.rollOffset⟩ ∧
    (∀ cfg' : Config, (calibrate cfg' e).yaw = (calibrate cfg e).yaw) :=
  ⟨rfl, fun _ => rfl⟩

/-! ## Theorems: Euler decomposition and reconstruction (C2, C4)

The key fact: for an orthonormal right-handed camera basis
(`right × up = -forward`, so that the matrix with columns
`[right, up, -forward]` is a rotation), the angles produced by the
`'YXZ'` extraction formula reconstruct the matrix exactly whenever the
extractor takes its main branch (`|m23| < 0.9999999`).  Inside the
fallback band `0.9999999 ≤ |m23| < 1` the extractor forces `roll = 0`
and is not exact; a concrete rational counterexample witnesses this. -/

theorem cross_rotate1 (c1 c2 c3 : Vec3) (h2 : dot c2 c2 = 1)
    (h12 : dot c1 c2 = 0) (hcr : cross c1 c2 = c3) : cross c2 c3 = c1 := by
  rw [← hcr, Vec3.cross_cross, h2, (dot_comm c2 c1).trans h12]
  ext <;> simp

theorem cross_anticomm (a b : Vec3) : cross a b = Vec3.neg (cross b a) := by
  unfold Vec3.cross Vec3.neg
  ext <;> ring

theorem cross_rotate2 (c1 c2 c3 : Vec3) (h1 : dot c1 c1 = 1)
    (h12 : dot c1 c2 = 0) (hcr : cross c1 c2 = c3) : cross c3 c1 = c2 := by
  rw [← hcr, cross_anticomm (cross c1 c2) c1, cross_anticomm c1 c2]
  rw [show cross c1 (Vec3.neg (cross c2 c1)) = Vec3.neg (cross c1 (cross c2 c1)) by
    unfold Vec3.cross Vec3.neg; ext <;> ring]
  rw [Vec3.cross_cross, h1, h12]
  unfold Vec3.neg
  ext <;> simp

/-- Unit middle row of a rotation matrix with orthonormal columns. -/
theorem rowy (c1 c2 c3 : Vec3) (h3 : dot c3 c3 = 1)
    (ha : cross c2 c3 = c1) (hb : cross c3 c1 = c2) (hcr : cross c1 c2 = c3) :
    c1.y ^ 2 + c2.y ^ 2 = 1 - c3.y ^ 2 := by
  have hay := congrArg Vec3.y ha
  have hby := congrArg Vec3.y hb
  have hcrx := congrArg Vec3.x hcr
  have hcrz := congrArg Vec3.z hcr
  simp only [Vec3.cross] at hay hby hcrx hcrz
  unfold Vec3.dot at h3
  linear_combination (-c1.y) * hay + (-c2.y) * hby + c3.x * hcrx + c3.z * hcrz + h3

theorem colI1 (c1 c2 c3 : Vec3) (ha : cross c2 c3 = c1) (hb : cross c3 c1 = c2) :
    c1.x * (1 - c3.y ^ 2) = c2.y * c3.z - c3.x * c1.y * c3.y := by
  have hax := congrArg Vec3.x ha
  have hbz := congrArg Vec3.z hb
  simp only [Vec3.cross] at hax hbz
  linear_combination (-1 : ℝ) * hax + c3.y * hbz

theorem colI2 (c1 c2 c3 : Vec3) (ha : cross c2 c3 = c1) (hb : cross c3 c1 = c2) :
    c2.x * (1 - c3.y ^ 2) = -(c1.y * c3.z) - c3.x * c2.y * c3.y := by
  have hbx := congrArg Vec3.x hb
  have haz := congrArg Vec3.z ha
  simp only [Vec3.cross] at hbx haz
  linear_combination (-1 : ℝ) * hbx + (-c3.y) * haz

theorem colI3 (c1 c2 c3 : Vec3) (ha : cross c2 c3 = c1) (hb : cross c3 c1 = c2) :
    c1.z * (1 - c3.y ^ 2) = -(c3.x * c2.y) - c1.y * c3.y * c3.z := by
  have haz := congrArg Vec3.z ha
  have hbx := congrArg Vec3.x hb
  simp only [Vec3.cross] at haz hbx
  linear_combination (-1 : ℝ) * haz + (-c3.y) * hbx

theorem colI4 (c1 c2 c3 : Vec3) (ha : cross c2 c3 = c1) (hb : cross c3 c1 = c2) :
    c2.z * (1 - c3.y ^ 2) = c3.x * c1.y - c2.y * c3.y * c3.z := by
  have hbz := congrArg Vec3.z hb
  have hax := congrArg Vec3.x ha
  simp only [Vec3.cross] at hbz hax
  linear_combination (-1 : ℝ) * hbz + c3.y * hax

set_option maxHeartbeats 1000000 in
/-- Exactness of the YXZ extraction formula away from gimbal lock: for
a matrix with orthonormal columns `c1, c2, c3` forming a right-handed
triple and `|m23| < 1`, the matrix `Ry(atan2 m13 m33) · Rx(asin(-m23))
· Rz(atan2 m21 m22)` equals the matrix itself. -/
theorem reconstruct_eulerYXZ_main (c1 c2 c3 : Vec3)
    (h1 : dot c1 c1 = 1) (h2 : dot c2 c2 = 1) (h3 : dot c3 c3 = 1)
    (h12 : dot c1 c2 = 0) (h13 : dot c1 c3 = 0) (h23 : dot c2 c3 = 0)
    (hcr : cross c1 c2 = c3) (hy : |c3.y| < 1) :
    matMul (matMul (rotY (atan2 c3.x c3.z)) (rotX (Real.arcsin (-c3.y))))
      (rotZ (atan2 c1.y c2.y)) = colMat c1 c2 c3 := by
  have ha : cross c2 c3 = c1 := cross_rotate1 c1 c2 c3 h2 h12 hcr
  have hb : cross c3 c1 = c2 := cross_rotate2 c1 c2 c3 h1 h12 hcr
  have hrowy : c1.y ^ 2 + c2.y ^ 2 = 1 - c3.y ^ 2 := rowy c1 c2 c3 h3 ha hb hcr
  obtain ⟨hyl, hyr⟩ := abs_lt.mp hy
  have hy2 : c3.y ^ 2 < 1 := by nlinarith
  have hcol3 : c3.x ^ 2 + c3.z ^ 2 = 1 - c3.y ^ 2 := by
    unfold Vec3.dot at h3
    linear_combination h3
  set cB := Real.sqrt (1 - c3.y ^ 2) with hcBdef
  have h1my : (0 : ℝ) < 1 - c3.y ^ 2 := by linarith
  have hcBpos : 0 < cB := Real.sqrt_pos.mpr h1my
  have hcBne : cB ≠ 0 := ne_of_gt hcBpos
  have hcBsq : cB ^ 2 = 1 - c3.y ^ 2 := Real.sq_sqrt (le_of_lt h1my)
  have hsb : Real.sin (Real.arcsin (-c3.y)) = -c3.y :=
    Real.sin_arcsin (by linarith) (by linarith)
  have hcb : Real.cos (Real.arcsin (-c3.y)) = cB := by
    rw [Real.cos_arcsin, show (1 - (-c3.y) ^ 2) = 1 - c3.y ^ 2 by ring]
  have hzg : (⟨c2.y, c1.y⟩ : ℂ) ≠ 0 := by
    intro h0
    have hre := congrArg Complex.re h0
    have him := congrArg Complex.im h0
    simp at hre him
    rw [hre, him] at hrowy
    nlinarith
  have habsg : Complex.abs ⟨c2.y, c1.y⟩ = cB := by
    rw [Complex.abs_apply, Complex.normSq_mk, hcBdef]
    congr 1
    linear_combination hrowy
  have hcg : Real.cos (atan2 c1.y c2.y) = c2.y / cB := by
    unfold atan2
    rw [Complex.cos_arg hzg, habsg]
  have hsg : Real.sin (atan2 c1.y c2.y) = c1.y / cB := by
    unfold atan2
    rw [Complex.sin_arg, habsg]
  have hza : (⟨c3.z, c3.x⟩ : ℂ) ≠ 0 := by
    intro h0
    have hre := congrArg Complex.re h0
    have him := congrArg Complex.im h0
    simp at hre him
    rw [hre, him] at hcol3
    nlinarith
  have habsa : Complex.abs ⟨c3.z, c3.x⟩ = cB := by
    rw [Complex.abs_apply, Complex.normSq_mk, hcBdef]
    congr 1
    linear_combination hcol3
  have hca : Real.cos (atan2 c3.x c3.z) = c3.z / cB := by
    unfold atan2
    rw [Complex.cos_arg hza, habsa]
  have hsa : Real.sin (atan2 c3.x c3.z) = c3.x / cB := by
    unfold atan2
    rw [Complex.sin_arg, habsa]
  have i1 := colI1 c1 c2 c3 ha hb
  have i2 := colI2 c1 c2 c3 ha hb
  have i3 := colI3 c1 c2 c3 ha hb
  have i4 := colI4 c1 c2 c3 ha hb
  refine Mat3.ext ?_ ?_ ?_ ?_ ?_ ?_ ?_ ?_ ?_ <;>
    simp only [matMul, rotY, rotX, rotZ, colMat] <;>
    simp only [hca, hsa, hsb, hcb, hcg, hsg]
  · field_simp
    linear_combination (-1 : ℝ) * i1 - c1.x * hcBsq
  · field_simp
    linear_combination (-(cB ^ 2)) * i2 + (-(cB ^ 2) * c2.x) * hcBsq
  · field_simp
  · field_simp
  · field_simp
  · ring
  · field_simp
    linear_combination (-(cB ^ 2)) * i3 + (-(cB ^ 2) * c1.z) * hcBsq
  · field_simp
    linear_combination (-1 : ℝ) * i4 - c2.z * hcBsq
  · field_simp

theorem deg2rad_rad2deg (t : ℝ) : deg2rad (rad2deg t) = t := by
  unfold deg2rad rad2deg
  field_simp

theorem clamp1_of_abs_le {t : ℝ} (h : |t| ≤ 1) : clamp1 t = t := by
  obtain ⟨hl, hr⟩ := abs_le.mp h
  unfold clamp1
  rw [min_eq_right hr, max_eq_right hl]

/-- Both branches of the extractor compute the same x angle. -/
theorem eulerYXZ_ex (M : Mat3) :
    (eulerYXZ M).ex = Real.arcsin (-(clamp1 M.m23)) := by
  unfold eulerYXZ
  split <;> rfl

/-- `cos 1° < 0.9999999`, the numeric fact separating a 89° pitch
bound from the extractor's fallback threshold. -/
theorem cos_pi_div_180_lt : Real.cos (Real.pi / 180) < 0.9999999 := by
  have hxpos : (0 : ℝ) < Real.pi / 180 := by positivity
  have h1 : |Real.pi / 180| ≤ 1 := by
    rw [abs_of_pos hxpos]
    nlinarith [Real.pi_lt_d2]
  have hb := Real.cos_bound h1
  have hub := (abs_sub_le_iff.mp hb).1
  have hxabs : |Real.pi / 180| = Real.pi / 180 := abs_of_pos hxpos
  have hu : Real.pi / 180 < (0.0175 : ℝ) := by nlinarith [Real.pi_lt_d2]
  have hl : (0.01744 : ℝ) < Real.pi / 180 := by nlinarith [Real.pi_gt_d2]
  have h4 : (Real.pi / 180) ^ 4 < (0.0175 : ℝ) ^ 4 :=
    pow_lt_pow_left₀ hu (le_of_lt hxpos) (by norm_num : (4 : ℕ) ≠ 0)
  have h2 : (0.01744 : ℝ) ^ 2 < (Real.pi / 180) ^ 2 := by nlinarith
  rw [hxabs] at hub
  nlinarith [hub, h4, h2]

/-- For angles in `[-π/2, π/2]`, `|sin t| = sin |t|`. -/
theorem abs_sin_eq_sin_abs {t : ℝ} (h : |t| ≤ Real.pi / 2) :
    |Real.sin t| = Real.sin |t| := by
  have hpi := Real.pi_pos
  obtain ⟨hl, hr⟩ := abs_le.mp h
  rcases le_or_lt 0 t with h0 | h0
  · rw [abs_of_nonneg h0]
    rw [abs_of_nonneg (Real.sin_nonneg_of_nonneg_of_le_pi h0 (by linarith))]
  · rw [abs_of_neg h0, Real.sin_neg]
    rw [abs_of_nonpos ?_]
    have hs : Real.sin (-t) ≥ 0 :=
      Real.sin_nonneg_of_nonneg_of_le_pi (by linarith) (by linarith)
    rw [Real.sin_neg] at hs
    linarith

/-- Shared core for C2 and C4: on the main branch of the extractor,
decomposing and reconstructing with the same intrinsic YXZ order is
exact. -/
theorem reconstruct_of_band (r u f : Vec3)
    (h1 : dot r r = 1) (h2 : dot u u = 1) (h3 : dot f f = 1)
    (h12 : dot r u = 0) (h13 : dot r f = 0) (h23 : dot u f = 0)
    (hcr : cross r u = Vec3.neg f)
    (hband : |(skyRotMatrix r u f).m23| < 0.9999999) :
    reconstructYXZ (eulerOfBasisDeg r u f) = skyRotMatrix r u f := by
  have h3' : dot (Vec3.neg f) (Vec3.neg f) = 1 := by
    unfold Vec3.dot Vec3.neg at *
    linear_combination h3
  have h13' : dot r (Vec3.neg f) = 0 := by
    unfold Vec3.dot Vec3.neg at *
    linear_combination (-1 : ℝ) * h13
  have h23' : dot u (Vec3.neg f) = 0 := by
    unfold Vec3.dot Vec3.neg at *
    linear_combination (-1 : ℝ) * h23
  have hy : |(Vec3.neg f).y| < 1 := by
    calc |(Vec3.neg f).y| = |(skyRotMatrix r u f).m23| := rfl
    _ < 0.9999999 := hband
    _ < 1 := by norm_num
  have hcl : clamp1 (skyRotMatrix r u f).m23 = (skyRotMatrix r u f).m23 :=
    clamp1_of_abs_le (le_of_lt (lt_of_lt_of_le hband (by norm_num)))
  have heuler : eulerYXZ (skyRotMatrix r u f) =
      ⟨Real.arcsin (-(skyRotMatrix r u f).m23),
        atan2 (skyRotMatrix r u f).m13 (skyRotMatrix r u f).m33,
        atan2 (skyRotMatrix r u f).m21 (skyRotMatrix r u f).m22⟩ := by
    unfold eulerYXZ
    rw [if_pos hband, hcl]
  show reconstructYXZ (eulerOfMatrixDeg (skyRotMatrix r u f)) = skyRotMatrix r u f
  unfold eulerOfMatrixDeg reconstructYXZ
  rw [heuler]
  simp only [deg2rad_rad2deg]
  exact reconstruct_eulerYXZ_main r u (Vec3.neg f) h1 h2 h3' h12 h13' h23' hcr hy

/-- A pitch bound of 89° keeps the extractor in its main branch:
`sin 89° = cos 1° < 0.9999999`. -/
theorem band_of_pitch (r u f : Vec3) (h3 : dot f f = 1)
    (hp : |(eulerOfBasisDeg r u f).pitch| < 89) :
    |(skyRotMatrix r u f).m23| < 0.9999999 := by
  have habs1 : |(skyRotMatrix r u f).m23| ≤ 1 := by
    have hm : (skyRotMatrix r u f).m23 = -f.y := rfl
    rw [hm, abs_neg]
    unfold Vec3.dot at h3
    rw [abs_le]
    constructor <;> nlinarith [sq_nonneg f.x, sq_nonneg f.z, sq_nonneg f.y]
  have hcl : clamp1 (skyRotMatrix r u f).m23 = (skyRotMatrix r u f).m23 :=
    clamp1_of_abs_le habs1
  have hpitch : (eulerOfBasisDeg r u f).pitch =
      rad2deg (Real.arcsin (-(skyRotMatrix r u f).m23)) := by
    show rad2deg (eulerYXZ (skyRotMatrix r u f)).ex = _
    rw [eulerYXZ_ex, hcl]
  rw [hpitch] at hp
  set t0 := Real.arcsin (-(skyRotMatrix r u f).m23) with ht0
  have hpi := Real.pi_pos
  have h89 : |t0| < 89 * (Real.pi / 180) := by
    have h180 : (0 : ℝ) < 180 / Real.pi := by positivity
    have habs : |rad2deg t0| = |t0| * (180 / Real.pi) := by
      unfold rad2deg
      rw [abs_mul, abs_of_pos h180]
    rw [habs] at hp
    have hmul := mul_lt_mul_of_pos_right hp
      (show (0 : ℝ) < Real.pi / 180 by positivity)
    calc |t0| = |t0| * (180 / Real.pi) * (Real.pi / 180) := by field_simp
    _ < 89 * (Real.pi / 180) := hmul
  have ht0half : |t0| ≤ Real.pi / 2 := by
    rw [ht0, abs_le]
    exact ⟨Real.neg_pi_div_two_le_arcsin _, Real.arcsin_le_pi_div_two _⟩
  obtain ⟨hm1, hm2⟩ := abs_le.mp habs1
  have hsin : Real.sin t0 = -(skyRotMatrix r u f).m23 :=
    Real.sin_arcsin (by linarith) (by linarith)
  have hmval : |(skyRotMatrix r u f).m23| = Real.sin |t0| := by
    rw [← abs_sin_eq_sin_abs ht0half, hsin, abs_neg]
  have hmono : Real.sin |t0| < Real.sin (89 * (Real.pi / 180)) := by
    apply Real.strictMonoOn_sin
      (Set.mem_Icc.mpr ⟨by linarith [abs_nonneg t0], ht0half⟩)
      (Set.mem_Icc.mpr ⟨by linarith, by linarith⟩) h89
  have hsin89 : Real.sin (89 * (Real.pi / 180)) = Real.cos (Real.pi / 180) := by
    rw [show (89 : ℝ) * (Real.pi / 180) = Real.pi / 2 - Real.pi / 180 by ring,
      Real.sin_pi_div_two_sub]
  calc |(skyRotMatrix r u f).m23| = Real.sin |t0| := hmval
  _ < Real.sin (89 * (Real.pi / 180)) := hmono
  _ = Real.cos (Real.pi / 180) := hsin89
  _ < 0.9999999 := cos_pi_div_180_lt

/-- C2 counterexample: "the angles it returns are exactly the YXZ
Euler decomposition of that matrix" fails for bases in the extractor's
near-gimbal fallback band `0.9999999 ≤ |m23| < 1`.  With
`s = 12495000/12495001` and `c = 4999/12495001` (so `s² + c² = 1` and
`s > 0.9999999`), the orthonormal right-handed basis
`right = (0,c,s)`, `up = (-1,0,0)`, `forward = (0,s,-c)` is decomposed
in the fallback branch (roll forced to `0`), and the reconstructed
matrix has entry `m12 = -s` where the original has `m12 = -1`. -/
theorem decomposer_exact_claim_false :
    ¬ (∀ r u f : Vec3,
        dot r r = 1 → dot u u = 1 → dot f f = 1 →
        dot r u = 0 → dot r f = 0 → dot u f = 0 →
        cross r u = Vec3.neg f →
        reconstructYXZ (eulerOfBasisDeg r u f) = skyRotMatrix r u f) := by
  intro hcl
  have h := hcl ⟨0, 4999 / 12495001, 12495000 / 12495001⟩ ⟨-1, 0, 0⟩
      ⟨0, 12495000 / 12495001, -(4999 / 12495001)⟩
    (by unfold Vec3.dot; norm_num)
    (by unfold Vec3.dot; norm_num)
    (by unfold Vec3.dot; norm_num)
    (by unfold Vec3.dot; norm_num)
    (by unfold Vec3.dot; norm_num)
    (by unfold Vec3.dot; norm_num)
    (by unfold Vec3.cross Vec3.neg; ext <;> norm_num)
  have hm23 : (skyRotMatrix ⟨0, 4999 / 12495001, 12495000 / 12495001⟩ ⟨-1, 0, 0⟩
      ⟨0, 12495000 / 12495001, -(4999 / 12495001)⟩).m23 =
      -(12495000 / 12495001) := rfl
  have hband : ¬ (|(skyRotMatrix ⟨0, 4999 / 12495001, 12495000 / 12495001⟩ ⟨-1, 0, 0⟩
      ⟨0, 12495000 / 12495001, -(4999 / 12495001)⟩).m23| < 0.9999999) := by
    rw [hm23, abs_neg, abs_of_pos (by norm_num)]
    norm_num
  have heuler : eulerYXZ (skyRotMatrix ⟨0, 4999 / 12495001, 12495000 / 12495001⟩
      ⟨-1, 0, 0⟩ ⟨0, 12495000 / 12495001, -(4999 / 12495001)⟩) =
      ⟨Real.arcsin (12495000 / 12495001), -(Real.pi / 2), 0⟩ := by
    unfold eulerYXZ
    rw [if_neg hband]
    have hc : clamp1 (-(12495000 / 12495001 : ℝ)) = -(12495000 / 12495001) :=
      clamp1_of_abs_le (by rw [abs_neg, abs_of_pos (by norm_num)]; norm_num)
    have harg : atan2 (-(12495000 / 12495001 : ℝ)) 0 = -(Real.pi / 2) := by
      unfold atan2
      exact Complex.arg_eq_neg_pi_div_two_iff.mpr ⟨rfl, by norm_num⟩
    have hm31 : (skyRotMatrix ⟨0, 4999 / 12495001, 12495000 / 12495001⟩ ⟨-1, 0, 0⟩
        ⟨0, 12495000 / 12495001, -(4999 / 12495001)⟩).m31 =
        12495000 / 12495001 := rfl
    have hm11 : (skyRotMatrix ⟨0, 4999 / 12495001, 12495000 / 12495001⟩ ⟨-1, 0, 0⟩
        ⟨0, 12495000 / 12495001, -(4999 / 12495001)⟩).m11 = 0 := rfl
    rw [hm23, hm31, hm11, hc, harg]
    norm_num
  have hL : (reconstructYXZ (eulerOfBasisDeg ⟨0, 4999 / 12495001, 12495000 / 12495001⟩
      ⟨-1, 0, 0⟩ ⟨0, 12495000 / 12495001, -(4999 / 12495001)⟩)).m12 =
      -(12495000 / 12495001) := by
    show (reconstructYXZ (eulerOfMatrixDeg _)).m12 = _
    unfold eulerOfMatrixDeg
    rw [heuler]
    unfold reconstructYXZ
    simp only [deg2rad_rad2deg]
    simp only [matMul, rotY, rotX, rotZ]
    rw [Real.cos_neg, Real.cos_pi_div_two, Real.sin_neg, Real.sin_pi_div_two,
      Real.sin_zero, Real.cos_zero,
      Real.sin_arcsin (by norm_num) (by norm_num)]
    ring
  have h12 := congrArg Mat3.m12 h
  rw [hL] at h12
  have hR : (skyRotMatrix ⟨0, 4999 / 12495001, 12495000 / 12495001⟩ ⟨-1, 0, 0⟩
      ⟨0, 12495000 / 12495001, -(4999 / 12495001)⟩).m12 = -1 := rfl
  rw [hR] at h12
  norm_num at h12

/-- C2 (amended): the Euler decomposer builds the matrix with columns
`[right, correctedUp, -forward]` and extracts (yaw, pitch, roll) in
degrees in intrinsic YXZ order; for every orthonormal right-handed
camera basis (`right × correctedUp = -forward`, viewing direction
`-forward`) whose matrix entry `m23` satisfies `|m23| < 0.9999999`
(the extractor's main branch), the returned angles are exactly the YXZ
Euler decomposition of that matrix: reconstructing `Ry·Rx·Rz` from
them reproduces the matrix. -/
theorem decomposer_exact_main_branch (r u f : Vec3)
    (h1 : dot r r = 1) (h2 : dot u u = 1) (h3 : dot f f = 1)
    (h12 : dot r u = 0) (h13 : dot r f = 0) (h23 : dot u f = 0)
    (hcr : cross r u = Vec3.neg f)
    (hband : |(skyRotMatrix r u f).m23| < 0.9999999) :
    reconstructYXZ (eulerOfBasisDeg r u f) = skyRotMatrix r u f :=
  reconstruct_of_band r u f h1 h2 h3 h12 h13 h23 hcr hband

/-- Witness for the amended C2 at the concrete basis
`right = (1,0,0)`, `up = (0,1,0)`, `forward = (0,0,-1)`. -/
theorem decomposer_exact_main_branch_witness :
    (dot ⟨1, 0, 0⟩ ⟨1, 0, 0⟩ = 1 ∧ dot ⟨0, 1, 0⟩ ⟨0, 1, 0⟩ = 1 ∧
      dot ⟨0, 0, -1⟩ ⟨0, 0, -1⟩ = 1 ∧ dot ⟨1, 0, 0⟩ ⟨0, 1, 0⟩ = 0 ∧
      dot ⟨1, 0, 0⟩ ⟨0, 0, -1⟩ = 0 ∧ dot ⟨0, 1, 0⟩ ⟨0, 0, -1⟩ = 0 ∧
      cross ⟨1, 0, 0⟩ ⟨0, 1, 0⟩ = Vec3.neg ⟨0, 0, -1⟩ ∧
      |(skyRotMatrix ⟨1, 0, 0⟩ ⟨0, 1, 0⟩ ⟨0, 0, -1⟩).m23| < 0.9999999) ∧
    reconstructYXZ (eulerOfBasisDeg ⟨1, 0, 0⟩ ⟨0, 1, 0⟩ ⟨0, 0, -1⟩) =
      skyRotMatrix ⟨1, 0, 0⟩ ⟨0, 1, 0⟩ ⟨0, 0, -1⟩ := by
  have e1 : dot (⟨1, 0, 0⟩ : Vec3) ⟨1, 0, 0⟩ = 1 := by unfold Vec3.dot; norm_num
  have e2 : dot (⟨0, 1, 0⟩ : Vec3) ⟨0, 1, 0⟩ = 1 := by unfold Vec3.dot; norm_num
  have e3 : dot (⟨0, 0, -1⟩ : Vec3) ⟨0, 0, -1⟩ = 1 := by unfold Vec3.dot; norm_num
  have e4 : dot (⟨1, 0, 0⟩ : Vec3) ⟨0, 1, 0⟩ = 0 := by unfold Vec3.dot; norm_num
  have e5 : dot (⟨1, 0, 0⟩ : Vec3) ⟨0, 0, -1⟩ = 0 := by unfold Vec3.dot; norm_num
  have e6 : dot (⟨0, 1, 0⟩ : Vec3) ⟨0, 0, -1⟩ = 0 := by unfold Vec3.dot; norm_num
  have e7 : cross (⟨1, 0, 0⟩ : Vec3) ⟨0, 1, 0⟩ = Vec3.neg ⟨0, 0, -1⟩ := by
    unfold Vec3.cross Vec3.neg
    ext <;> norm_num
  have e8 : |(skyRotMatrix ⟨1, 0, 0⟩ ⟨0, 1, 0⟩ ⟨0, 0, -1⟩).m23| < 0.9999999 := by
    have hm : (skyRotMatrix ⟨1, 0, 0⟩ ⟨0, 1, 0⟩ ⟨0, 0, -1⟩).m23 = -(0 : ℝ) := rfl
    rw [hm]
    norm_num
  exact ⟨⟨e1, e2, e3, e4, e5, e6, e7, e8⟩,
    decomposer_exact_main_branch _ _ _ e1 e2 e3 e4 e5 e6 e7 e8⟩

/-- C4: round-trip law — for every orthonormal right-handed camera
basis whose decomposed pitch satisfies `|pitch| < 89°`, decomposing to
(yaw, pitch, roll) and reconstructing a basis from those angles in the
same intrinsic YXZ order yields the original basis exactly (hence
within any numerical tolerance). -/
theorem roundtrip_basis (r u f : Vec3)
    (h1 : dot r r = 1) (h2 : dot u u = 1) (h3 : dot f f = 1)
    (h12 : dot r u = 0) (h13 : dot r f = 0) (h23 : dot u f = 0)
    (hcr : cross r u = Vec3.neg f)
    (hp : |(eulerOfBasisDeg r u f).pitch| < 89) :
    reconstructYXZ (eulerOfBasisDeg r u f) = skyRotMatrix r u f :=
  reconstruct_of_band r u f h1 h2 h3 h12 h13 h23 hcr (band_of_pitch r u f h3 hp)

/-- Witness for C4 at the concrete basis `right = (1,0,0)`,
`up = (0,1,0)`, `forward = (0,0,-1)`, whose decomposed pitch is 0. -/
theorem roundtrip_basis_witness :
    (dot ⟨1, 0, 0⟩ ⟨1, 0, 0⟩ = 1 ∧
      |(eulerOfBasisDeg ⟨1, 0, 0⟩ ⟨0, 1, 0⟩ ⟨0, 0, -1⟩).pitch| < 89) ∧
    reconstructYXZ (eulerOfBasisDeg ⟨1, 0, 0⟩ ⟨0, 1, 0⟩ ⟨0, 0, -1⟩) =
      skyRotMatrix ⟨1, 0, 0⟩ ⟨0, 1, 0⟩ ⟨0, 0, -1⟩ := by
  have e1 : dot (⟨1, 0, 0⟩ : Vec3) ⟨1, 0, 0⟩ = 1 := by unfold Vec3.dot; norm_num
  have e2 : dot (⟨0, 1, 0⟩ : Vec3) ⟨0, 1, 0⟩ = 1 := by unfold Vec3.dot; norm_num
  have e3 : dot (⟨0, 0, -1⟩ : Vec3) ⟨0, 0, -1⟩ = 1 := by unfold Vec3.dot; norm_num
  have e4 : dot (⟨1, 0, 0⟩ : Vec3) ⟨0, 1, 0⟩ = 0 := by unfold Vec3.dot; norm_num
  have e5 : dot (⟨1, 0, 0⟩ : Vec3) ⟨0, 0, -1⟩ = 0 := by unfold Vec3.dot; norm_num
  have e6 : dot (⟨0, 1, 0⟩ : Vec3) ⟨0, 0, -1⟩ = 0 := by unfold Vec3.dot; norm_num
  have e7 : cross (⟨1, 0, 0⟩ : Vec3) ⟨0, 1, 0⟩ = Vec3.neg ⟨0, 0, -1⟩ := by
    unfold Vec3.cross Vec3.neg
    ext <;> norm_num
  have hp0 : (eulerOfBasisDeg ⟨1, 0, 0⟩ ⟨0, 1, 0⟩ ⟨0, 0, -1⟩).pitch = 0 := by
    show rad2deg (eulerYXZ (skyRotMatrix ⟨1, 0, 0⟩ ⟨0, 1, 0⟩ ⟨0, 0, -1⟩)).ex = 0
    rw [eulerYXZ_ex]
    have hm : (skyRotMatrix ⟨1, 0, 0⟩ ⟨0, 1, 0⟩ ⟨0, 0, -1⟩).m23 = -(0 : ℝ) := rfl
    rw [hm]
    norm_num [clamp1, Real.arcsin_zero, rad2deg]
  have e8 : |(eulerOfBasisDeg ⟨1, 0, 0⟩ ⟨0, 1, 0⟩ ⟨0, 0, -1⟩).pitch| < 89 := by
    rw [hp0]
    norm_num
  exact ⟨⟨e1, e8⟩, roundtrip_basis _ _ _ e1 e2 e3 e4 e5 e6 e7 e8⟩

/-! ## Theorems: the rotation baker (C3) -/

/-- The wrapped longitude always lands in `[-π, π)`. -/
theorem wrapLon_mem (x : ℝ) : wrapLon x ∈ Set.Ico (-Real.pi) Real.pi := by
  unfold wrapLon
  have hT : (0 : ℝ) < 2 * Real.pi := by positivity
  have h1 := Int.fract_nonneg ((x + Real.pi) / (2 * Real.pi))
  have h2 := Int.fract_lt_one ((x + Real.pi) / (2 * Real.pi))
  rw [Int.fract] at h1 h2
  have hval : x + Real.pi - 2 * Real.pi * ⌊(x + Real.pi) / (2 * Real.pi)⌋ =
      ((x + Real.pi) / (2 * Real.pi) - ⌊(x + Real.pi) / (2 * Real.pi)⌋) *
        (2 * Real.pi) := by
    field_simp
  constructor
  · have hm := mul_nonneg h1 (le_of_lt hT)
    rw [← hval] at hm
    linarith
  · have hm := mul_lt_mul_of_pos_right h2 hT
    rw [one_mul, ← hval] at hm
    linarith

/-- The clamped latitude always lands in `[-π/2, π/2]`. -/
theorem clampLat_mem (x : ℝ) :
    clampLat x ∈ Set.Icc (-(Real.pi / 2)) (Real.pi / 2) := by
  have hpi := Real.pi_pos
  unfold clampLat
  constructor
  · exact le_max_left _ _
  · exact max_le (by linarith) (min_le_left _ _)

/-- Horizontal texel wrap stays in range. -/
theorem wrapIdx_lt {w : ℕ} (hw : 0 < w) (i : ℤ) : wrapIdx w i < w := by
  unfold wrapIdx
  have hw' : (w : ℤ) ≠ 0 := by
    have h0 : (0 : ℤ) < w := by exact_mod_cast hw
    omega
  have h1 := Int.emod_nonneg i hw'
  have h2 := Int.emod_lt_of_pos i (show (0 : ℤ) < w by exact_mod_cast hw)
  omega

/-- Vertical texel clamp stays in range. -/
theorem clampIdx_lt {h : ℕ} (hh : 0 < h) (i : ℤ) : clampIdx h i < h := by
  unfold clampIdx
  have h1 : max 0 (min ((h : ℤ) - 1) i) ≤ (h : ℤ) - 1 :=
    max_le (by omega) (min_le_left _ _)
  omega

/-- C3: for every source equirectangular image of width W, height H
(both positive) and every rotation matrix R, the baked image has the
same dimensions; every output pixel (px,py) is the source bilinearly
sampled at the fractional pixel of the direction `Rᵗ·d(px,py)`, where
(px,py) maps to longitude `(px/W)·2π − π` and latitude
`π/2 − (py/H)·π`; the source longitude is wrapped into `[-π, π)`, the
latitude clamped into `[-π/2, π/2]`, and the four blended texels are
read with in-range indices (horizontal wrap, vertical clamp). -/
theorem baker_pixel_mapping (R : Mat3) (img : EquirectImage) (px py : ℕ)
    (hw : 0 < img.width) (hh : 0 < img.height) :
    ((bakeImage R img).width = img.width ∧ (bakeImage R img).height = img.height) ∧
    (bakeImage R img).pix px py =
      bilinearSample img
        (srcFx img.width (wrapLon (lonOfDir (applyMat (transpose R)
          (dirOfLonLat (((px : ℝ) / (img.width : ℝ)) * (2 * Real.pi) - Real.pi)
            (Real.pi / 2 - ((py : ℝ) / (img.height : ℝ)) * Real.pi))))))
        (srcFy img.height (clampLat (latOfDir (applyMat (transpose R)
          (dirOfLonLat (((px : ℝ) / (img.width : ℝ)) * (2 * Real.pi) - Real.pi)
            (Real.pi / 2 - ((py : ℝ) / (img.height : ℝ)) * Real.pi)))))) ∧
    wrapLon (lonOfDir (applyMat (transpose R)
        (dirOfLonLat (lonOfPixel img.width px) (latOfPixel img.height py)))) ∈
      Set.Ico (-Real.pi) Real.pi ∧
    clampLat (latOfDir (applyMat (transpose R)
        (dirOfLonLat (lonOfPixel img.width px) (latOfPixel img.height py)))) ∈
      Set.Icc (-(Real.pi / 2)) (Real.pi / 2) ∧
    (∀ ix iy : ℤ, wrapIdx img.width ix < img.width ∧
      clampIdx img.height iy < img.height) :=
  ⟨⟨rfl, rfl⟩, rfl, wrapLon_mem _, clampLat_mem _,
    fun ix iy => ⟨wrapIdx_lt hw ix, clampIdx_lt hh iy⟩⟩

/-- Witness for C3 on a concrete 1×1 image with the identity
rotation. -/
theorem baker_pixel_mapping_witness :
    ((0 : ℕ) < 1) ∧
    (bakeImage ⟨1, 0, 0, 0, 1, 0, 0, 0, 1⟩ ⟨1, 1, fun _ _ => 0⟩).width = 1 := by
  refine ⟨by norm_num, ?_⟩
  exact (baker_pixel_mapping ⟨1, 0, 0, 0, 1, 0, 0, 0, 1⟩ ⟨1, 1, fun _ _ => 0⟩ 0 0
    (by norm_num) (by norm_num)).1.1

/-! ## Theorems: the orientation pipeline (C7, C8, C9) -/

/-- A successfully processed frame is marked baked. -/
theorem processFrame_ok_baked {ioFail : ℕ → Bool} {f f' : Frame}
    (h : processFrame ioFail f = Except.ok f') : f'.baked = true := by
  unfold processFrame at h
  split_ifs at h
  injection h with h'
  rw [← h']

/-- The per-frame loop acts frame-by-frame: the output records are the
pointwise `stepFrame` image of the input, and the summaries are the
pointwise filters. -/
theorem runFrames_spec (ioFail : ℕ → Bool) (frames : List Frame) :
    (runFrames ioFail frames).1 = frames.map (stepFrame ioFail) ∧
    (runFrames ioFail frames).2.1 = successesOf ioFail frames ∧
    (runFrames ioFail frames).2.2.1 = failuresOf ioFail frames := by
  induction frames with
  | nil => exact ⟨rfl, rfl, rfl⟩
  | cons f fs ih =>
    obtain ⟨ih1, ih2, ih3⟩ := ih
    by_cases hb : f.baked
    · simp [runFrames, stepFrame, successesOf, failuresOf, hb,
        List.filterMap_cons, ih1, ih2, ih3]
    · cases hpf : processFrame ioFail f with
      | ok f' =>
        simp [runFrames, stepFrame, successesOf, failuresOf, hb, hpf,
          List.filterMap_cons, ih1, ih2, ih3]
      | error e =>
        simp [runFrames, stepFrame, successesOf, failuresOf, hb, hpf,
          List.filterMap_cons, ih1, ih2, ih3]

/-- The per-frame loop skips every already-baked frame. -/
theorem runFrames_all_baked (ioFail : ℕ → Bool) (frames : List Frame)
    (h : ∀ fr ∈ frames, fr.baked = true) :
    runFrames ioFail frames = (frames, [], [], []) := by
  induction frames with
  | nil => rfl
  | cons f fs ih =>
    have hf : f.baked = true := h f (List.mem_cons_self f fs)
    have hfs := ih fun fr hfr => h fr (List.mem_cons_of_mem f hfr)
    simp [runFrames, hf, hfs]

/-- A run over an all-baked collection changes nothing and writes no
image. -/
theorem run_all_baked (ioFail : ℕ → Bool) (lim : Option ℕ) (frames : List Frame)
    (h : ∀ fr ∈ frames, fr.baked = true) :
    run ioFail false lim frames =
      ⟨frames, [], [], [Event.backup frames, Event.writeCollection]⟩ := by
  unfold run
  rw [if_neg (by simp)]
  have htake := runFrames_all_baked ioFail (frames.take (lim.getD frames.length))
    fun fr hfr => h fr (List.take_subset _ _ hfr)
  simp only [htake]
  simp [List.take_append_drop]

/-- After a failure-free uncapped run, every frame record is marked
baked. -/
theorem baked_after_run (ioFail : ℕ → Bool) (frames : List Frame)
    (h : (run ioFail false none frames).failed = []) :
    ∀ fr ∈ (run ioFail false none frames).frames, fr.baked = true := by
  obtain ⟨hs1, hs2, hs3⟩ := runFrames_spec ioFail frames
  have hrun : run ioFail false none frames =
      ⟨frames.map (stepFrame ioFail), successesOf ioFail frames,
        failuresOf ioFail frames,
        Event.backup frames :: ((runFrames ioFail frames).2.2.2 ++
          [Event.writeCollection])⟩ := by
    unfold run
    rw [if_neg (by simp)]
    simp [List.take_length, List.drop_length, hs1, hs2, hs3]
  rw [hrun] at h ⊢
  intro fr hfr
  obtain ⟨f, hf, rfl⟩ := List.mem_map.mp hfr
  by_cases hb : f.baked
  · rw [stepFrame, if_pos hb]
    exact hb
  · cases hpf : processFrame ioFail f with
    | ok f' =>
      rw [stepFrame, if_neg hb, hpf]
      exact processFrame_ok_baked hpf
    | error e =>
      exfalso
      have hnone := List.filterMap_eq_nil_iff.mp h f hf
      simp [hb, hpf] at hnone

/-- C7: pipeline idempotence — every frame already marked baked is
skipped and never re-baked; after a pipeline run with no failures, a
second run on the resulting collection bakes zero frames (no image
write events), reports nothing, and leaves every record exactly as it
was, so the outputs stay byte-identical to the first run. -/
theorem pipeline_idempotent (ioFail ioFail' : ℕ → Bool) (lim' : Option ℕ)
    (frames : List Frame)
    (h : (run ioFail false none frames).failed = []) :
    run ioFail' false lim' (run ioFail false none frames).frames =
      ⟨(run ioFail false none frames).frames, [], [],
        [Event.backup (run ioFail false none frames).frames,
          Event.writeCollection]⟩ ∧
    bakedCount (run ioFail' false lim' (run ioFail false none frames).frames) = 0 := by
  have hbaked := baked_after_run ioFail frames h
  have hr := run_all_baked ioFail' lim' (run ioFail false none frames).frames hbaked
  refine ⟨hr, ?_⟩
  rw [hr]
  rfl

/-- Witness for C7 on a concrete one-frame collection: the first run
has no failures and the second run bakes zero frames. -/
theorem pipeline_idempotent_witness :
    (run (fun _ => false) false none [mkFrame 1 goodDir]).failed = [] ∧
    bakedCount (run (fun _ => false) false none
      (run (fun _ => false) false none [mkFrame 1 goodDir]).frames) = 0 := by
  have h : (run (fun _ => false) false none [mkFrame 1 goodDir]).failed = [] := by
    simp [run, runFrames, mkFrame, processFrame, degenerateQ, goodDir,
      normSqQ, crossQ, epsSq]
    norm_num
  exact ⟨h, (pipeline_idempotent (fun _ => false) (fun _ => false) none
    [mkFrame 1 goodDir] h).2⟩

/-- C8: in every pipeline run, any mutation event (image write or
record mutation) is strictly preceded in the trace by the persisted
timestamped backup of the verbatim pre-run collection; a dry run
mutates nothing, so no mutation ever precedes the backup. -/
theorem backup_before_mutation (ioFail : ℕ → Bool) (dry : Bool) (lim : Option ℕ)
    (frames : List Frame) (i : ℕ) (ev : Event)
    (hev : (run ioFail dry lim frames).events[i]? = some ev)
    (hmut : isMutation ev = true) :
    ∃ j, j < i ∧
      (run ioFail dry lim frames).events[j]? = some (Event.backup frames) := by
  cases dry with
  | true =>
    simp [run] at hev
  | false =>
    have hev' : (Event.backup frames :: ((runFrames ioFail
        (frames.take ((lim).getD frames.length))).2.2.2 ++
        [Event.writeCollection]))[i]? = some ev := hev
    cases i with
    | zero =>
      rw [List.getElem?_cons_zero] at hev'
      injection hev' with h0
      rw [← h0] at hmut
      simp [isMutation] at hmut
    | succ n =>
      exact ⟨0, Nat.succ_pos n, by simp [run]⟩

/-- Witness for C8 on a concrete one-frame run: the image write at
trace position 1 is preceded by the backup at position 0. -/
theorem backup_before_mutation_witness :
    (run (fun _ => false) false none [mkFrame 1 goodDir]).events[1]? =
      some (Event.writeImage 1) ∧
    isMutation (Event.writeImage 1) = true ∧
    ∃ j, j < 1 ∧ (run (fun _ => false) false none [mkFrame 1 goodDir]).events[j]? =
      some (Event.backup [mkFrame 1 goodDir]) := by
  have hev : (run (fun _ => false) false none [mkFrame 1 goodDir]).events[1]? =
      some (Event.writeImage 1) := by
    simp [run, runFrames, mkFrame, processFrame, degenerateQ, goodDir,
      normSqQ, crossQ, epsSq]
    norm_num
  exact ⟨hev, rfl, backup_before_mutation (fun _ => false) false none
    [mkFrame 1 goodDir] 1 (Event.writeImage 1) hev rfl⟩

/-- C9: partial-failure isolation — each frame's outcome depends only
on that frame (`run` acts as a pointwise map with pointwise success and
failure summaries), and concretely the 5-frame collection whose frame
3 has parallel forward/up vectors bakes frames 1, 2, 4, 5, leaves
frame 3 unchanged, and reports frame 3 failed with
`DegenerateBasisError`. -/
theorem pipeline_partial_failure_isolation :
    (∀ (ioFail : ℕ → Bool) (frames : List Frame),
      (run ioFail false none frames).frames = frames.map (stepFrame ioFail) ∧
      (run ioFail false none frames).succeeded = successesOf ioFail frames ∧
      (run ioFail false none frames).failed = failuresOf ioFail frames) ∧
    (run (fun _ => false) false none fiveFrames).succeeded = [1, 2, 4, 5] ∧
    (run (fun _ => false) false none fiveFrames).failed =
      [(3, PipelineError.degenerateBasis)] ∧
    (run (fun _ => false) false none fiveFrames).frames.map Frame.baked =
      [true, true, false, true, true] ∧
    (run (fun _ => false) false none fiveFrames).frames[2]? =
      some (mkFrame 3 parallelDir) := by
  constructor
  · intro ioFail frames
    obtain ⟨hs1, hs2, hs3⟩ := runFrames_spec ioFail frames
    unfold run
    rw [if_neg (by simp)]
    simp [List.take_length, List.drop_length, hs1, hs2, hs3]
  · refine ⟨?_, ?_, ?_, ?_⟩ <;>
      (simp [run, runFrames, fiveFrames, mkFrame, processFrame, degenerateQ,
        goodDir, parallelDir, normSqQ, crossQ, epsSq, identityDirection,
        processedPath]; norm_num)

end SkyRot
